import Mathlib

/-!
Verification development for the EnergyGrid analytics engine
(`analysis.py`, `app_dash.py`).  The Python source is shallowly embedded:
node identifiers are strings, attribute strings stay strings and are run
through executable models of Python's `int()` / `float()` conversions,
numeric analysis values are exact rationals, and the graph is an explicit
record of node and edge lists.  Fallible code paths are modelled with
`Option` / `Except`.
-/

/-! ## Python-style numeric string parsing

Models of Python `int(str)` and `float(str)` restricted to ASCII decimal
literals (optional surrounding whitespace, optional sign, digits with
single underscores between digits; `float` additionally allows a decimal
point and a decimal exponent).  `inf` / `nan` and non-ASCII digits are out
of scope and treated as unparseable. -/

/-- Python whitespace as stripped by `str.strip()` (ASCII range). -/
def isPySpace (c : Char) : Bool :=
  c = ' ' || c = '\t' || c = '\n' || c = '\r' || c.toNat = 11 || c.toNat = 12

/-- `str.strip()` on the character list (structural, unlike
`String.trim`, so that terms reduce inside the kernel). -/
def trimChars (cs : List Char) : List Char :=
  (((cs.dropWhile isPySpace).reverse.dropWhile isPySpace).reverse)

/-- `str.split(';')` on the character list: splitting an empty string
gives `[""]`, adjacent separators give empty tokens. -/
def splitOnSemi : List Char → List (List Char)
  | [] => [[]]
  | c :: rest =>
    if c = ';' then [] :: splitOnSemi rest
    else
      match splitOnSemi rest with
      | [] => [[c]]
      | g :: gs => (c :: g) :: gs

/-- `s.split(';')` as a list of strings. -/
def pySplitSemi (s : String) : List String :=
  (splitOnSemi s.toList).map (fun g => String.mk g)

/-- Digits (with Python's single-underscore separators) after the first
digit has been consumed; `acc` is the value so far. -/
def pyDigitsGo : List Char → Nat → Option Nat
  | [], acc => some acc
  | c :: cs, acc =>
    if c.isDigit then pyDigitsGo cs (acc * 10 + (c.toNat - 48))
    else if c = '_' then
      match cs with
      | c2 :: cs2 =>
        if c2.isDigit then pyDigitsGo cs2 (acc * 10 + (c2.toNat - 48)) else none
      | [] => none
    else none

/-- Nonempty digit run (underscores allowed between digits), as in the
integer part of a Python numeric literal. -/
def pyDigits : List Char → Option Nat
  | [] => none
  | c :: cs => if c.isDigit then pyDigitsGo cs (c.toNat - 48) else none

/-- Model of Python `int(s)`: strip whitespace, optional sign, digit run.
Returns `none` where Python raises `ValueError`. -/
def pyIntParse (s : String) : Option Int :=
  match trimChars s.toList with
  | [] => none
  | '+' :: cs => (pyDigits cs).map (fun n => (n : Int))
  | '-' :: cs => (pyDigits cs).map (fun n => -(n : Int))
  | cs => (pyDigits cs).map (fun n => (n : Int))

/-- Splits a character list at the first character satisfying `p`;
the second component is `none` when no such character occurs. -/
def splitAtChar (p : Char → Bool) : List Char → List Char × Option (List Char)
  | [] => ([], none)
  | c :: cs =>
    if p c then ([], some cs)
    else
      let r := splitAtChar p cs
      (c :: r.1, r.2)

/-- Fractional digit run: returns the accumulated value together with the
number of digits consumed (underscores do not count). -/
def pyFracGo : List Char → Nat → Nat → Option (Nat × Nat)
  | [], acc, cnt => some (acc, cnt)
  | c :: cs, acc, cnt =>
    if c.isDigit then pyFracGo cs (acc * 10 + (c.toNat - 48)) (cnt + 1)
    else if c = '_' then
      match cs with
      | c2 :: cs2 =>
        if c2.isDigit then pyFracGo cs2 (acc * 10 + (c2.toNat - 48)) (cnt + 1) else none
      | [] => none
    else none

/-- Nonempty fractional digit run (first char must be a digit). -/
def pyFracDigits : List Char → Option (Nat × Nat)
  | [] => none
  | c :: cs => if c.isDigit then pyFracGo cs (c.toNat - 48) 1 else none

/-- Mantissa of a float literal: `digits`, `digits.`, `.digits` or
`digits.digits`. -/
def pyMantissa (cs : List Char) : Option ℚ :=
  match splitAtChar (fun c => c = '.') cs with
  | (ip, none) => (pyDigits ip).map (fun n => (n : ℚ))
  | ([], some []) => none
  | ([], some f) => (pyFracDigits f).map (fun fc => (fc.1 : ℚ) / (10 : ℚ) ^ fc.2)
  | (ip, some []) => (pyDigits ip).map (fun n => (n : ℚ))
  | (ip, some f) =>
    match pyDigits ip, pyFracDigits f with
    | some n, some fc => some ((n : ℚ) + (fc.1 : ℚ) / (10 : ℚ) ^ fc.2)
    | _, _ => none

/-- Exponent part of a float literal: optional sign then digits. -/
def pyExp (cs : List Char) : Option Int :=
  match cs with
  | '+' :: r => (pyDigits r).map (fun n => (n : Int))
  | '-' :: r => (pyDigits r).map (fun n => -(n : Int))
  | r => (pyDigits r).map (fun n => (n : Int))

/-- Unsigned magnitude of a float literal, with optional exponent. -/
def pyFloatMag (cs : List Char) : Option ℚ :=
  match splitAtChar (fun c => c = 'e' || c = 'E') cs with
  | (mant, none) => pyMantissa mant
  | (mant, some ex) =>
    match pyMantissa mant, pyExp ex with
    | some m, some e => some (m * (10 : ℚ) ^ e)
    | _, _ => none

/-- Model of Python `float(s)` on finite decimal literals: strip
whitespace, optional sign, magnitude.  Returns `none` where Python raises
`ValueError` (and, for a non-string argument, `TypeError`). -/
def pyFloatParse (s : String) : Option ℚ :=
  match trimChars s.toList with
  | [] => none
  | '+' :: cs => pyFloatMag cs
  | '-' :: cs => (pyFloatMag cs).map (fun q => -q)
  | cs => pyFloatMag cs

/-! ## `_parse_voltage` (analysis.py lines 10-25) -/

/-- Model of `max(int(v) for v in v_str.split(';'))` under
`try/except`: Python evaluates `int` on the tokens left to right and the
whole expression fails as soon as one token fails, so the result is
`none` unless every token parses. -/
def intMaxTokens : List String → Option Int
  | [] => none
  | [t] => pyIntParse t
  | t :: ts =>
    match pyIntParse t, intMaxTokens ts with
    | some a, some b => some (max a b)
    | _, _ => none

/-- `_parse_voltage`: `0` for an absent or empty string, otherwise the
maximum of the `;`-separated tokens when all of them parse as Python
ints, and `0` when the conversion raises. -/
def parseVoltage : Option String → Int
  | none => 0
  | some s => if s = "" then 0 else (intMaxTokens (pySplitSemi s)).getD 0

/-- Stated from the claim wording for C4: parse each `;`-separated token
as an unsigned integer and return the maximum over the tokens that do
parse, `0` when none parses. -/
def specVoltageClaim : Option String → Int
  | none => 0
  | some s =>
    if s = "" then 0
    else
      match (pySplitSemi s).filterMap (fun t => pyDigits t.toList) with
      | [] => 0
      | v :: vs => ((vs.foldl max v : Nat) : Int)

/-- Token list mapped through `pyIntParse`, succeeding only when every
token parses (helper for relating `intMaxTokens` to its description). -/
def optTokens : List String → Option (List Int)
  | [] => some []
  | t :: ts =>
    match pyIntParse t, optTokens ts with
    | some v, some vs => some (v :: vs)
    | _, _ => none

/-- Amended description of `_parse_voltage`: `0` when the string is
absent, empty, or ANY token fails to parse as a Python (signed) integer;
otherwise the maximum of all parsed tokens. -/
def specVoltageAmended : Option String → Int
  | none => 0
  | some s =>
    if s = "" then 0
    else
      let ts := pySplitSemi s
      if ts.all (fun t => (pyIntParse t).isSome) then
        match ts.filterMap pyIntParse with
        | [] => 0
        | v :: vs => vs.foldl max v
      else 0

/-! ## Graph data model

`networkx.Graph` as loaded from the graphml file: string node ids, node
attribute strings `lat` / `lon`, edge attribute strings `voltage` /
`lengthm`.  The fields `capacity` and `weight` model the numeric overlay
attributes that `get_bottleneck_analysis` and
`get_weighted_centrality_analysis` assign on their copies; they are
absent on the canonical graph. -/

structure NodeData where
  id : String
  lat : Option String := none
  lon : Option String := none
deriving DecidableEq

structure EdgeData where
  src : String
  dst : String
  voltage : Option String := none
  lengthm : Option String := none
  capacity : Option ℚ := none
  weight : Option ℚ := none
deriving DecidableEq

structure Graph where
  nodes : List NodeData
  edges : List EdgeData
deriving DecidableEq

/-- Node id list, in the graph's iteration order. -/
def Graph.nodeIds (G : Graph) : List String := G.nodes.map (fun nd => nd.id)

/-- `G.number_of_nodes()`. -/
def Graph.numberOfNodes (G : Graph) : Nat := G.nodes.length

/-- `G.remove_node(n)`: drops the node and all incident edges. -/
def Graph.removeNode (G : Graph) (n : String) : Graph :=
  ⟨G.nodes.filter (fun nd => nd.id ≠ n),
   G.edges.filter (fun e => e.src ≠ n ∧ e.dst ≠ n)⟩

/-- Well-formedness inherited from networkx: every edge endpoint is a
node of the graph. -/
def Graph.wfB (G : Graph) : Bool :=
  G.edges.all (fun e => e.src ∈ G.nodeIds ∧ e.dst ∈ G.nodeIds)

/-! ## Connected components (`nx.connected_components`)

Reachability is computed as the fuel-bounded closure of one-step
adjacency; `G.nodeIds.length` rounds of expansion cover every path. -/

/-- Undirected adjacency induced by the edge list. -/
def Graph.adjB (G : Graph) (u v : String) : Bool :=
  G.edges.any (fun e => (e.src = u ∧ e.dst = v) ∨ (e.src = v ∧ e.dst = u))

/-- One round of closure expansion: add every node adjacent to the
current set. -/
def Graph.expand (G : Graph) (S : List String) : List String :=
  S ++ G.nodeIds.filter (fun v => S.any (fun u => G.adjB u v))

/-- `k` rounds of expansion. -/
def Graph.reachAux (G : Graph) : Nat → List String → List String
  | 0, S => S
  | k + 1, S => G.reachAux k (G.expand S)

/-- All nodes reachable from `s` (fuel `|V|` suffices: a shortest path
has at most `|V| - 1` edges). -/
def Graph.reachSet (G : Graph) (s : String) : List String :=
  G.reachAux G.nodeIds.length [s]

/-- The connected component of `s`, as the sublist of `nodeIds` of nodes
reachable from `s`. -/
def Graph.component (G : Graph) (s : String) : List String :=
  G.nodeIds.filter (fun v => v ∈ G.reachSet s)

/-- `len(max(nx.connected_components(G), key=len))`, and `0` on the empty
graph. -/
def Graph.maxCompSize (G : Graph) : Nat :=
  (G.nodeIds.map (fun s => (G.component s).length)).foldr max 0

/-- Connectivity check: every node is reachable from the first one.  The
empty graph is not connected (networkx raises on it). -/
def Graph.connectedB (G : Graph) : Bool :=
  match G.nodeIds with
  | [] => false
  | s :: _ => G.nodeIds.all (fun v => v ∈ G.reachSet s)

/-! ## `calculate_robustness` (analysis.py lines 143-186) -/

/-- One iteration of the attack loop.  `n` is `initial_size` (the node
count of the copy before any removal). -/
def robStep (n : ℚ) (st : Graph × List ℚ) (node : String) : Graph × List ℚ :=
  let Gc := st.1
  let sizes := st.2
  if node ∈ Gc.nodeIds then
    let Gc2 := Gc.removeNode node
    if Gc2.numberOfNodes = 0 then (Gc2, sizes ++ [0])
    else (Gc2, sizes ++ [(Gc2.maxCompSize : ℚ) / n])
  else
    (Gc, if sizes.isEmpty then sizes else sizes ++ [sizes.getLastD 0])

/-- The attack loop state after processing the whole attack list,
starting from the disposable copy (`G_copy = G.copy()`) and
`sizes = [1.0]`. -/
def robFold (G : Graph) (L : List String) : Graph × List ℚ :=
  L.foldl (robStep (G.numberOfNodes : ℚ)) (G, [1])

/-- `calculate_robustness`: the emitted fraction sequence (the
`'Розмір мережі (%)'` column divided by 100). -/
def calculate_robustness (G : Graph) (L : List String) : List ℚ :=
  (robFold G L).2

/-- The `'Розмір мережі (%)'` column itself (fractions scaled by 100). -/
def robustnessPercents (G : Graph) (L : List String) : List ℚ :=
  (calculate_robustness G L).map (fun s => s * 100)

/-- The state of the disposable copy after the first `k` attack entries
have been processed. -/
def robGraphAfter (G : Graph) (L : List String) (k : Nat) : Graph :=
  (robFold G (L.take k)).1

/-! ## Voltage classification and geo output
(`get_voltage_data_for_nodes`, analysis.py lines 190-237, and
`get_hubs_voltage_composition`, lines 332-366) -/

/-- The classification branch of `get_voltage_data_for_nodes`
(lines 224-227). -/
def geoClassify (v : Int) : String :=
  if v ≥ 380000 then "380кВ+"
  else if v ≥ 220000 then "220кВ"
  else if v ≥ 110000 then "110кВ"
  else "Інше (<110кВ)"

/-- The classification branch of `get_hubs_voltage_composition`
(lines 352-355): the `counts` key incremented for one line. -/
def hubClassify (v : Int) : String :=
  if v ≥ 380000 then "380кВ+"
  else if v ≥ 220000 then "220кВ"
  else if v ≥ 110000 then "110кВ"
  else "Інше"

/-- The abstract four-tier partition with cut points 380000, 220000 and
110000 (spec invariant). -/
inductive VoltTier where
  | t380 : VoltTier
  | t220 : VoltTier
  | t110 : VoltTier
  | tOther : VoltTier
deriving DecidableEq

/-- Tier of a voltage value under the partition. -/
def specTier (v : Int) : VoltTier :=
  if 380000 ≤ v then .t380
  else if 220000 ≤ v then .t220
  else if 110000 ≤ v then .t110
  else .tOther

/-- Labels used by the geo classification, per tier. -/
def geoLabel : VoltTier → String
  | .t380 => "380кВ+"
  | .t220 => "220кВ"
  | .t110 => "110кВ"
  | .tOther => "Інше (<110кВ)"

/-- Labels used by the hub-composition classification, per tier. -/
def hubLabel : VoltTier → String
  | .t380 => "380кВ+"
  | .t220 => "220кВ"
  | .t110 => "110кВ"
  | .tOther => "Інше"

/-- `if voltage > node_voltages[u]: node_voltages[u] = voltage` as a
functional update of the voltage map. -/
def voltUpd (m : String → Int) (u : String) (v : Int) : String → Int :=
  fun x => if x = u then (if v > m u then v else m u) else m x

/-- The edge loop of `get_voltage_data_for_nodes` (lines 203-207): for
each edge, parse its voltage and raise the recorded maximum of BOTH
endpoints. -/
def nodeVoltagesAux (m : String → Int) : List EdgeData → (String → Int)
  | [] => m
  | e :: es =>
    let v := parseVoltage e.voltage
    nodeVoltagesAux (voltUpd (voltUpd m e.src v) e.dst v) es

/-- Per-node maximum incident voltage map (`node_voltages`, a
`defaultdict(int)` so unseen nodes map to 0). -/
def nodeVoltages (G : Graph) : String → Int :=
  nodeVoltagesAux (fun _ => 0) G.edges

/-- Stated from the claim wording: a node's maximum incident voltage,
the fold of `_parse_voltage` over its incident edges (0 when edgeless). -/
def specMaxIncident (G : Graph) (n : String) : Int :=
  ((G.edges.filter (fun e => e.src = n || e.dst = n)).map
    (fun e => parseVoltage e.voltage)).foldl max 0

/-- One row of the geo output.  The `text` tooltip column is pure
presentation and is not modelled. -/
structure GeoRow where
  lat : ℚ
  lon : ℚ
  category : String
  id : String
deriving DecidableEq

/-- `get_voltage_data_for_nodes`: nodes with present, parseable
coordinates, classified by their maximum incident voltage. -/
def get_voltage_data_for_nodes (G : Graph) : List GeoRow :=
  G.nodes.filterMap (fun nd =>
    match nd.lat, nd.lon with
    | some latS, some lonS =>
      if latS = "" ∨ lonS = "" then none
      else
        match pyFloatParse latS, pyFloatParse lonS with
        | some la, some lo =>
          some ⟨la, lo, geoClassify (nodeVoltages G nd.id), nd.id⟩
        | _, _ => none
    | _, _ => none)

/-! ## `get_bottleneck_analysis` (analysis.py lines 241-305) -/

/-- The capacity assignment of lines 257-268: `1.0` when `lengthm` is
absent or malformed (the `except` branch) or parses to `0`, else
`1.0 / length`. -/
def assignCapacity (e : EdgeData) : EdgeData :=
  { e with
    capacity := some (match e.lengthm with
      | none => 1
      | some s =>
        match pyFloatParse s with
        | none => 1
        | some l => if l = 0 then 1 else 1 / l) }

/-- `G_capacity`: the disposable copy with the capacity overlay. -/
def Graph.withCapacities (G : Graph) : Graph :=
  { G with edges := G.edges.map assignCapacity }

/-- Capacity attribute lookup as used by the flow computation
(`capacity='capacity'`); every edge of `G_capacity` carries one, so the
default is never consulted. -/
def edgeCap (e : EdgeData) : ℚ := e.capacity.getD 1

/-- Stated from the claim wording for C2: the capacity of an edge is 1.0
if its length is 0 or its length attribute is absent/malformed, and
`1.0/length` otherwise. -/
def claimCapacity (e : EdgeData) : ℚ :=
  match e.lengthm with
  | none => 1
  | some s =>
    match pyFloatParse s with
    | none => 1
    | some l => if l = 0 then 1 else 1 / l

/-- Total capacity crossing the node partition `(S, V \ S)`. -/
def cutWeight (edges : List EdgeData) (S : List String) : ℚ :=
  ((edges.filter (fun e =>
    decide ((e.src ∈ S ∧ e.dst ∉ S) ∨ (e.dst ∈ S ∧ e.src ∉ S)))).map edgeCap).sum

/-- All candidate source sides: node subsets containing `s` but not `t`. -/
def cutCandidates (G : Graph) (s t : String) : List (List String) :=
  G.nodeIds.sublists.filter (fun S => decide (s ∈ S ∧ t ∉ S))

/-- Modelled from the spec (§4.6) and the documented contract of
`networkx.algorithms.flow.minimum_cut`, whose implementation is library
code outside this repository: the minimum, over all source/sink
separating partitions, of the total capacity crossing the partition. -/
def minCutValue (G : Graph) (s t : String) : ℚ :=
  match (cutCandidates G s t).map (cutWeight G.edges) with
  | [] => 0
  | w :: ws => ws.foldl min w

/-- Modelled from the spec (§4.6): a partition side attaining the
minimum cut value (the `reachable` side returned by `minimum_cut`). -/
def minCutSide (G : Graph) (s t : String) : List String :=
  ((cutCandidates G s t).find?
    (fun S => decide (cutWeight G.edges S = minCutValue G s t))).getD []

/-- Modelled from the spec (§4.6): `nx_flow.minimum_cut` returning the
cut value and the partition `(reachable, non_reachable)`. -/
def minimum_cut (G : Graph) (s t : String) : ℚ × (List String × List String) :=
  let P := minCutSide G s t
  (minCutValue G s t, (P, G.nodeIds.filter (fun v => decide (v ∉ P))))

/-- `nx.edge_boundary(G, A, B)`: edges with one endpoint in `A` and the
other in `B`. -/
def edge_boundary (edges : List EdgeData) (A B : List String) : List EdgeData :=
  edges.filter (fun e =>
    decide ((e.src ∈ A ∧ e.dst ∈ B) ∨ (e.dst ∈ A ∧ e.src ∈ B)))

/-- The flow part of `get_bottleneck_analysis` (lines 254-276): capacity
overlay, min cut, boundary extraction. -/
structure CutCore where
  cutValue : ℚ
  reachable : List String
  nonReachable : List String
  boundary : List EdgeData
deriving DecidableEq

/-- Lines 254-276 of `get_bottleneck_analysis`. -/
def bottleneckCore (G : Graph) (s t : String) : CutCore :=
  let Gc := G.withCapacities
  let r := minimum_cut Gc s t
  ⟨r.1, r.2.1, r.2.2, edge_boundary Gc.edges r.2.1 r.2.2⟩

/-- One row of the bottleneck table.  The length column is kept numeric;
the source formats it as `f"{...:.1f} м"`. -/
structure BottleneckRow where
  line : String
  voltage : String
  lengthMeters : ℚ
deriving DecidableEq

/-- The KPI dictionary (`stats`).  `cut_value_str` and
`min_voltage_str` are kept numeric; the source only formats them. -/
structure BottleneckStats where
  cutValue : ℚ
  lineCount : Nat
  minVoltage : Int
deriving DecidableEq

/-- The row loop of lines 282-291.  `float(edge_data.get('lengthm', 0))`
at line 291 is NOT guarded by a `try`: a present but malformed `lengthm`
raises `ValueError`, modelled as `Except.error`.  An absent `lengthm`
uses the default `0`. -/
def buildRows : List EdgeData → Except String (List BottleneckRow)
  | [] => .ok []
  | e :: es =>
    match (match e.lengthm with
           | none => some (0 : ℚ)
           | some s => pyFloatParse s) with
    | none => .error "ValueError: could not convert lengthm to float"
    | some l =>
      match buildRows es with
      | .error m => .error m
      | .ok rs => .ok (⟨e.src ++ " - " ++ e.dst, e.voltage.getD "0", l⟩ :: rs)

/-- The weakest-link tracking of lines 280-294: the minimum strictly
positive parsed voltage over the cut, 0 (`"N/A"`) when there is none. -/
def minPosVolt (vs : List Int) : Int :=
  (vs.foldl (fun acc v =>
    if 0 < v ∧ (match acc with | none => true | some m => decide (v < m)) = true
    then some v else acc) (none : Option Int)).getD 0

/-- `get_bottleneck_analysis`: the full function, returning the KPI
stats and the boundary table, or the propagated `ValueError` of
line 291. -/
def get_bottleneck_analysis (G : Graph) (s t : String) :
    Except String (BottleneckStats × List BottleneckRow) :=
  let core := bottleneckCore G s t
  match buildRows core.boundary with
  | .error m => .error m
  | .ok rows =>
    .ok (⟨core.cutValue, rows.length,
          minPosVolt (core.boundary.map
            (fun e => parseVoltage (some (e.voltage.getD "0"))))⟩, rows)

/-! ## `update_bottleneck_analysis` (app_dash.py lines 308-350)

The callback's observable outcome: which alert (if any) it renders, or
the computed result.  The flow analysis is passed as a parameter so that
theorems can state that validation failures never consult it. -/

inductive FlowCallbackResult where
  | missingInput : FlowCallbackResult
  | sourceNotFound : String → FlowCallbackResult
  | sinkNotFound : String → FlowCallbackResult
  | sameNode : FlowCallbackResult
  | calcError : String → FlowCallbackResult
  | ok : BottleneckStats × List BottleneckRow → FlowCallbackResult
deriving DecidableEq

/-- The validation chain of lines 317-330 followed by the guarded call of
lines 335-342.  An empty id is falsy in Python, so the
`not source_id or not sink_id` check fires first; the membership checks
against `G_main.nodes` come next, and the equality check last. -/
def update_bottleneck_analysis
    (flowFn : Graph → String → String → Except String (BottleneckStats × List BottleneckRow))
    (G : Graph) (source_id sink_id : String) : FlowCallbackResult :=
  if source_id = "" ∨ sink_id = "" then .missingInput
  else if source_id ∉ G.nodeIds then .sourceNotFound source_id
  else if sink_id ∉ G.nodeIds then .sinkNotFound sink_id
  else if source_id = sink_id then .sameNode
  else
    match flowFn G source_id sink_id with
    | .error e => .calcError e
    | .ok r => .ok r

/-! ## Object-identity model for the frame claim (C8)

Python analyses receive the canonical graph by reference; `G.copy()`
allocates a fresh object and the destructive loops mutate the fresh one
through its reference.  A heap of graph objects addressed by `Nat` makes
this explicit, so "the canonical graph is unchanged" is a statement
about the heap cell of the argument, not a tautology of a pure model. -/

structure Heap where
  store : Nat → Graph
  next : Nat

/-- Allocate a fresh cell holding `g` (models `G.copy()`). -/
def Heap.alloc (h : Heap) (g : Graph) : Nat × Heap :=
  (h.next, ⟨fun a => if a = h.next then g else h.store a, h.next + 1⟩)

/-- Overwrite the cell at `a` (models in-place mutation of the object at
`a`). -/
def Heap.put (h : Heap) (a : Nat) (g : Graph) : Heap :=
  ⟨fun b => if b = a then g else h.store b, h.next⟩

/-- Dereference. -/
def Heap.deref (h : Heap) (a : Nat) : Graph := h.store a

/-- One attack-loop iteration acting on the copy cell `ca`. -/
def robStepH (n : ℚ) (ca : Nat) (st : Heap × List ℚ) (node : String) :
    Heap × List ℚ :=
  let h := st.1
  let sizes := st.2
  let Gc := h.deref ca
  if node ∈ Gc.nodeIds then
    let h2 := h.put ca (Gc.removeNode node)
    let Gc2 := h2.deref ca
    if Gc2.numberOfNodes = 0 then (h2, sizes ++ [0])
    else (h2, sizes ++ [(Gc2.maxCompSize : ℚ) / n])
  else
    (h, if sizes.isEmpty then sizes else sizes ++ [sizes.getLastD 0])

/-- `calculate_robustness` with explicit object identity: the canonical
graph lives at address `ga`; the loop mutates only the freshly allocated
copy. -/
def calculate_robustness_heap (h : Heap) (ga : Nat) (L : List String) :
    List ℚ × Heap :=
  let g := h.deref ga
  let ch := h.alloc g
  let st := L.foldl (robStepH (g.numberOfNodes : ℚ) ch.1) (ch.2, [1])
  (st.2, st.1)

/-- Overwrite edge `i` of a graph with its capacity-assigned version
(one iteration of the loop at lines 257-268, acting in place). -/
def Graph.assignCapAt (G : Graph) (i : Nat) : Graph :=
  match G.edges[i]? with
  | some e => { G with edges := G.edges.set i (assignCapacity e) }
  | none => G

/-- `get_bottleneck_analysis` with explicit object identity: the capacity
loop mutates the edge dictionaries of the freshly allocated copy, edge by
edge. -/
def get_bottleneck_analysis_heap (h : Heap) (ga : Nat) (s t : String) :
    Except String (BottleneckStats × List BottleneckRow) × Heap :=
  let g := h.deref ga
  let ch := h.alloc g
  let h2 := (List.range g.edges.length).foldl
    (fun hh i => hh.put ch.1 ((hh.deref ch.1).assignCapAt i)) ch.2
  let Gc := h2.deref ch.1
  let r := minimum_cut Gc s t
  let bd := edge_boundary Gc.edges r.2.1 r.2.2
  (match buildRows bd with
   | .error m => .error m
   | .ok rows =>
     .ok (⟨r.1, rows.length,
           minPosVolt (bd.map (fun e => parseVoltage (some (e.voltage.getD "0"))))⟩,
          rows),
   h2)

/-- Overwrite edge `i` with its weight-assigned version (one iteration of
the loop at lines 103-110: `data['weight'] = float(length_str)`, default
1.0 on a missing or malformed length). -/
def assignWeight (e : EdgeData) : EdgeData :=
  { e with
    weight := some (match e.lengthm with
      | none => 1
      | some s => (pyFloatParse s).getD 1) }

/-- In-place weight assignment of edge `i`. -/
def Graph.assignWeightAt (G : Graph) (i : Nat) : Graph :=
  match G.edges[i]? with
  | some e => { G with edges := G.edges.set i (assignWeight e) }
  | none => G

/-- Descending-score insertion (model of
`sorted(..., key=lambda item: item[1], reverse=True)`). -/
def insertDesc (x : String × ℚ) : List (String × ℚ) → List (String × ℚ)
  | [] => [x]
  | y :: ys => if y.2 < x.2 then x :: y :: ys else y :: insertDesc x ys

/-- Sort a score list descending by score. -/
def sortDesc : List (String × ℚ) → List (String × ℚ)
  | [] => []
  | x :: xs => insertDesc x (sortDesc xs)

/-- `get_weighted_centrality_analysis` with explicit object identity.
`nx.betweenness_centrality` is library code that only reads the graph; it
is passed in as the function `bc`. -/
def get_weighted_centrality_analysis_heap (h : Heap) (ga : Nat)
    (bc : Graph → List (String × ℚ)) : List (String × ℚ) × Heap :=
  let g := h.deref ga
  let ch := h.alloc g
  let h2 := (List.range g.edges.length).foldl
    (fun hh i => hh.put ch.1 ((hh.deref ch.1).assignWeightAt i)) ch.2
  (sortDesc (bc (h2.deref ch.1)), h2)

/-! ## Concrete graphs used as witnesses -/

/-- A connected 3-node path `a - b - c` with voltage and length data. -/
def pathGraph3 : Graph :=
  ⟨[⟨"a", some "50.0", some "30.0"⟩, ⟨"b", some "51.0", some "31.0"⟩,
    ⟨"c", some "52.0", some "32.0"⟩],
   [⟨"a", "b", some "380000;110000", some "2.0", none, none⟩,
    ⟨"b", "c", some "110000", some "4.0", none, none⟩]⟩

/-- A 2-node graph whose single edge has a malformed `lengthm`. -/
def badLengthGraph : Graph :=
  ⟨[⟨"a", none, none⟩, ⟨"b", none, none⟩],
   [⟨"a", "b", some "110000", some "abc", none, none⟩]⟩

/-- A single-node graph. -/
def oneNodeGraph : Graph := ⟨[⟨"a", none, none⟩], []⟩

/-- A one-cell heap holding the 3-node path graph at address 0. -/
def heap0 : Heap := ⟨fun _ => pathGraph3, 1⟩

/-- The callback with explicit object identity for the canonical graph:
validation failures return the heap untouched; only the success path runs
the flow analysis (which itself mutates only its own copy). -/
def update_bottleneck_analysis_state (h : Heap) (ga : Nat) (s t : String) :
    FlowCallbackResult × Heap :=
  let G := h.deref ga
  if s = "" ∨ t = "" then (.missingInput, h)
  else if s ∉ G.nodeIds then (.sourceNotFound s, h)
  else if t ∉ G.nodeIds then (.sinkNotFound t, h)
  else if s = t then (.sameNode, h)
  else
    match get_bottleneck_analysis_heap h ga s t with
    | (.error e, h2) => (.calcError e, h2)
    | (.ok r, h2) => (.ok r, h2)

/-- Loop invariant of the attack loop of `calculate_robustness`, for a
run whose initial graph has `n0` nodes: the size list is nonempty, its
values lie in `[0, 1]` and are non-increasing, its last value dominates
the current giant-component fraction, the surviving node list never
exceeds `n0`, and an empty survivor graph forces a last value of 0. -/
def RobInv (n0 : Nat) (st : Graph × List ℚ) : Prop :=
  st.2 ≠ [] ∧
  (∀ x ∈ st.2, 0 ≤ x ∧ x ≤ 1) ∧
  List.Chain' (fun a b => b ≤ a) st.2 ∧
  (st.1.maxCompSize : ℚ) / (n0 : ℚ) ≤ st.2.getLastD 0 ∧
  st.1.nodeIds.length ≤ n0 ∧
  (st.1.nodeIds = [] → st.2.getLastD 0 = 0)

/-! # Theorems

Generic list/order helpers first, then the lemmas and claim theorems. -/

theorem foldr_max_le {l : List Nat} {b : Nat} (h : ∀ x ∈ l, x ≤ b) :
    l.foldr max 0 ≤ b := by
  induction l with
  | nil => exact Nat.zero_le b
  | cons a l ih =>
    simp only [List.foldr_cons]
    exact max_le (h a (List.mem_cons_self a l)) (ih fun x hx => h x (List.mem_cons_of_mem a hx))

theorem le_foldr_max {l : List Nat} {a : Nat} (h : a ∈ l) :
    a ≤ l.foldr max 0 := by
  induction l with
  | nil => cases h
  | cons b l ih =>
    simp only [List.foldr_cons]
    rcases List.mem_cons.mp h with rfl | h'
    · exact le_max_left _ _
    · exact le_trans (ih h') (le_max_right _ _)

theorem foldl_min_mem : ∀ (ws : List ℚ) (w : ℚ), ws.foldl min w ∈ w :: ws := by
  intro ws
  induction ws with
  | nil => intro w; simp
  | cons c cs ih =>
    intro w
    simp only [List.foldl_cons]
    rcases List.mem_cons.mp (ih (min w c)) with h | h
    · rcases min_choice w c with h' | h' <;> rw [h] <;> simp [h']
    · simp [h]

theorem getLastD_mem {l : List ℚ} (h : l ≠ []) : l.getLastD 0 ∈ l := by
  cases l with
  | nil => exact absurd rfl h
  | cons a l => rw [List.getLastD_cons]; exact List.getLastD_mem_cons l a

theorem chain'_concat {l : List ℚ} {x : ℚ}
    (hc : List.Chain' (fun a b => b ≤ a) l) (hne : l ≠ [])
    (hx : x ≤ l.getLastD 0) : List.Chain' (fun a b => b ≤ a) (l ++ [x]) := by
  rw [List.chain'_append]
  refine ⟨hc, List.chain'_singleton x, ?_⟩
  intro y hy z hz
  rw [List.getLast?_eq_getLast l hne] at hy
  simp only [Option.mem_def, Option.some.injEq] at hy
  simp only [List.head?_cons, Option.mem_def, Option.some.injEq] at hz
  subst hy; subst hz
  calc x ≤ l.getLastD 0 := hx
    _ = (l.getLast? ).getD 0 := by rw [List.getLastD_eq_getLast? ]
    _ = l.getLast hne := by rw [List.getLast?_eq_getLast l hne]; rfl

theorem getD_last_index {l : List ℚ} (h : l ≠ []) :
    l.getD (l.length - 1) 0 = l.getLastD 0 := by
  induction l with
  | nil => exact absurd rfl h
  | cons a l ih =>
    cases l with
    | nil => rfl
    | cons b l =>
      have hne : b :: l ≠ [] := List.cons_ne_nil b l
      have : (a :: b :: l).length - 1 = (b :: l).length - 1 + 1 := by
        simp [List.length_cons]
      rw [this, List.getLastD_cons]
      exact ih hne

/-! ## C4: `_parse_voltage` -/

theorem optTokens_cons (t : String) (ts : List String) :
    optTokens (t :: ts) =
      match pyIntParse t, optTokens ts with
      | some v, some vs => some (v :: vs)
      | _, _ => none := rfl

theorem max_foldl_max (a : Int) : ∀ (vs : List Int) (v : Int),
    max a (vs.foldl max v) = vs.foldl max (max a v) := by
  intro vs
  induction vs with
  | nil => intro v; rfl
  | cons c cs ih =>
    intro v
    simp only [List.foldl_cons]
    rw [ih (max v c), ← max_assoc]

theorem intMaxTokens_eq_optTokens : ∀ ts : List String,
    intMaxTokens ts =
      match optTokens ts with
      | none => none
      | some [] => none
      | some (v :: vs) => some (vs.foldl max v) := by
  intro ts
  induction ts with
  | nil => rfl
  | cons t ts ih =>
    cases ts with
    | nil =>
      rw [show intMaxTokens [t] = pyIntParse t from rfl, optTokens_cons]
      cases pyIntParse t <;> rfl
    | cons u us =>
      rw [show intMaxTokens (t :: u :: us) =
            (match pyIntParse t, intMaxTokens (u :: us) with
             | some a, some b => some (max a b)
             | _, _ => none) from rfl]
      rw [ih, optTokens_cons t (u :: us)]
      cases hpt : pyIntParse t with
      | none =>
        cases hou : optTokens (u :: us) with
        | none => rfl
        | some vs => cases vs <;> rfl
      | some a =>
        cases hou : optTokens (u :: us) with
        | none => rfl
        | some vs =>
          cases vs with
          | nil =>
            exfalso
            rw [optTokens_cons] at hou
            revert hou
            cases pyIntParse u <;> cases optTokens us <;> intro hou <;> simp at hou
          | cons v vs =>
            simp only [List.foldl_cons]
            exact congrArg some (max_foldl_max a vs v)

theorem optTokens_of_all {ts : List String}
    (h : ts.all (fun t => (pyIntParse t).isSome) = true) :
    optTokens ts = some (ts.filterMap pyIntParse) := by
  induction ts with
  | nil => rfl
  | cons t ts ih =>
    simp only [List.all_cons, Bool.and_eq_true] at h
    obtain ⟨ht, hts⟩ := h
    obtain ⟨v, hv⟩ := Option.isSome_iff_exists.mp ht
    simp only [optTokens, hv, ih hts, List.filterMap_cons, hv]

theorem optTokens_of_not_all {ts : List String}
    (h : ¬ ts.all (fun t => (pyIntParse t).isSome) = true) :
    optTokens ts = none := by
  induction ts with
  | nil => exact absurd rfl h
  | cons t ts ih =>
    simp only [List.all_cons, Bool.and_eq_true, not_and_or] at h
    rcases h with h | h
    · have : pyIntParse t = none := by
        cases hpt : pyIntParse t
        · rfl
        · exact absurd (by simp [hpt]) h
      simp [optTokens, this]
    · rw [show optTokens (t :: ts) =
            (match pyIntParse t, optTokens ts with
             | some v, some vs => some (v :: vs)
             | _, _ => none) from rfl, ih h]
      cases pyIntParse t <;> rfl

/-- C4 (amended): `_parse_voltage` never raises, returns 0 when the
string is absent or empty, and on a nonempty string returns the maximum
of the `;`-separated tokens parsed as Python (signed) integers provided
EVERY token parses; if any token fails to parse it returns 0. -/
theorem c4_parse_voltage_amended :
    parseVoltage none = 0 ∧ parseVoltage (some "") = 0 ∧
    ∀ v : Option String, parseVoltage v = specVoltageAmended v := by
  refine ⟨rfl, rfl, ?_⟩
  intro v
  cases v with
  | none => rfl
  | some s =>
    simp only [parseVoltage, specVoltageAmended]
    by_cases hs : s = ""
    · simp [hs]
    · simp only [if_neg hs]
      rw [intMaxTokens_eq_optTokens]
      by_cases hall : (pySplitSemi s).all (fun t => (pyIntParse t).isSome) = true
      · rw [optTokens_of_all hall, if_pos hall]
        cases (pySplitSemi s).filterMap pyIntParse <;> rfl
      · rw [optTokens_of_not_all hall, if_neg hall]
        rfl

/-- C4 (counterexample): the claim says a string with at least one
parseable token returns the maximum of its parseable tokens, and that
tokens are parsed as unsigned integers; the code returns 0 for
`"7;x"` (one bad token poisons the whole `max`) and returns the negative
value `-5` for `"-5"`. -/
theorem c4_counterexample :
    parseVoltage (some "7;x") = 0 ∧ specVoltageClaim (some "7;x") = 7 ∧
    parseVoltage (some "-5") = -5 ∧ specVoltageClaim (some "-5") = 0 := by
  refine ⟨?_, ?_, ?_, ?_⟩ <;> decide

/-! ## C10 / C7: voltage tiers -/

theorem hubClassify_eq (v : Int) : hubClassify v = hubLabel (specTier v) := by
  unfold hubClassify hubLabel specTier
  split_ifs with h1 h2 h3 <;> rfl

theorem geoClassify_eq (v : Int) : geoClassify v = geoLabel (specTier v) := by
  unfold geoClassify geoLabel specTier
  split_ifs with h1 h2 h3 <;> rfl

theorem label_iff : ∀ t t' : VoltTier,
    (hubLabel t = hubLabel t') ↔ (geoLabel t = geoLabel t') := by
  intro t t'
  cases t <;> cases t' <;> decide

/-- C10: the tier thresholds of `get_hubs_voltage_composition` and of
`get_voltage_data_for_nodes` agree: on any parsed voltage value both
classifiers factor through the same four-tier partition with cut points
380000, 220000, 110000, so the two classification passes are equivalent
as maps from voltage values to tiers. -/
theorem c10_tier_equivalence :
    ∀ s : Option String,
      hubClassify (parseVoltage s) = hubLabel (specTier (parseVoltage s)) ∧
      geoClassify (parseVoltage s) = geoLabel (specTier (parseVoltage s)) ∧
      ∀ s' : Option String,
        (hubClassify (parseVoltage s) = hubClassify (parseVoltage s') ↔
         geoClassify (parseVoltage s) = geoClassify (parseVoltage s')) := by
  intro s
  refine ⟨hubClassify_eq _, geoClassify_eq _, fun s' => ?_⟩
  rw [hubClassify_eq, hubClassify_eq, geoClassify_eq, geoClassify_eq]
  exact label_iff _ _

theorem if_gt_max (c v : Int) : (if v > c then v else c) = max c v := by
  rcases le_or_lt v c with h | h
  · rw [if_neg (not_lt.mpr h), max_eq_left h]
  · rw [if_pos h, max_eq_right h.le]

theorem voltUpd_apply (m : String → Int) (u : String) (v : Int) (x : String) :
    voltUpd m u v x = if x = u then max (m u) v else m x := by
  unfold voltUpd
  by_cases h : x = u
  · rw [if_pos h, if_pos h, if_gt_max]
  · rw [if_neg h, if_neg h]

theorem nodeVoltagesAux_eq (n : String) : ∀ (es : List EdgeData) (m : String → Int),
    nodeVoltagesAux m es n =
      ((es.filter (fun e => e.src = n || e.dst = n)).map
        (fun e => parseVoltage e.voltage)).foldl max (m n) := by
  intro es
  induction es with
  | nil => intro m; rfl
  | cons e es ih =>
    intro m
    rw [show nodeVoltagesAux m (e :: es) n =
          nodeVoltagesAux
            (voltUpd (voltUpd m e.src (parseVoltage e.voltage)) e.dst
              (parseVoltage e.voltage)) es n from rfl, ih]
    have hupd : (voltUpd (voltUpd m e.src (parseVoltage e.voltage)) e.dst
        (parseVoltage e.voltage)) n =
        if (e.src = n || e.dst = n) then max (m n) (parseVoltage e.voltage)
        else m n := by
      rw [voltUpd_apply, voltUpd_apply, voltUpd_apply]
      by_cases hs : e.src = n <;> by_cases hd : e.dst = n
      · simp [hs, hd, max_assoc, max_self]
      · have hd2 : ¬ n = e.dst := fun hc => hd hc.symm
        simp [hs, hd, hd2]
      · have hs2 : ¬ n = e.src := fun hc => hs hc.symm
        simp [hs, hd, hs2]
      · have hs2 : ¬ n = e.src := fun hc => hs hc.symm
        have hd2 : ¬ n = e.dst := fun hc => hd hc.symm
        simp [hs, hd, hs2, hd2]
    rw [hupd]
    by_cases hinc : (e.src = n || e.dst = n) = true
    · rw [if_pos hinc, List.filter_cons, if_pos hinc, List.map_cons,
        List.foldl_cons]
    · rw [if_neg hinc, List.filter_cons, if_neg hinc]

theorem nodeVoltages_eq_specMaxIncident (G : Graph) (n : String) :
    nodeVoltages G n = specMaxIncident G n := by
  unfold nodeVoltages specMaxIncident
  rw [nodeVoltagesAux_eq]

/-- C7: every node appearing in the geo output is categorised by the
total order-preserving four-tier partition applied to its maximum
incident voltage; the voltage string `"380000;110000"` parses to 380000
(tier `380кВ+`), and an empty or malformed voltage string falls back to
0 (tier `Інше (<110кВ)`). -/
theorem c7_geo_classification :
    (∀ (G : Graph) (row : GeoRow), row ∈ get_voltage_data_for_nodes G →
      row.category = geoLabel (specTier (specMaxIncident G row.id))) ∧
    parseVoltage (some "380000;110000") = 380000 ∧
    specTier 380000 = .t380 ∧
    parseVoltage (some "") = 0 ∧
    parseVoltage (some "x;y") = 0 ∧
    specTier 0 = .tOther := by
  refine ⟨?_, by decide, by decide, by decide, by decide, by decide⟩
  intro G row hrow
  unfold get_voltage_data_for_nodes at hrow
  obtain ⟨nd, hnd, hf⟩ := List.mem_filterMap.mp hrow
  have hcat : row.category = geoClassify (nodeVoltages G nd.id) ∧ row.id = nd.id := by
    repeat' split at hf
    all_goals try cases hf
    all_goals exact ⟨rfl, rfl⟩
  rw [hcat.1, hcat.2, geoClassify_eq, nodeVoltages_eq_specMaxIncident]

set_option maxRecDepth 4096 in
/-- C7 witness: node `a` of the 3-node path graph appears in the geo
output and its category is the tier of its maximum incident voltage. -/
theorem c7_witness :
    (GeoRow.mk 50 30 "380кВ+" "a" ∈ get_voltage_data_for_nodes pathGraph3) ∧
    (GeoRow.mk 50 30 "380кВ+" "a").category =
      geoLabel (specTier (specMaxIncident pathGraph3 (GeoRow.mk 50 30 "380кВ+" "a").id)) :=
  ⟨by with_unfolding_all decide, c7_geo_classification.1 pathGraph3 _ (by with_unfolding_all decide)⟩

/-! ## Heap lemmas and the frame claims -/

theorem Heap.put_deref_ne (h : Heap) (a b : Nat) (g : Graph) (hne : b ≠ a) :
    (h.put a g).deref b = h.deref b := by
  unfold Heap.put Heap.deref
  exact if_neg hne

theorem Heap.alloc_deref_lt (h : Heap) (g : Graph) (b : Nat) (hb : b < h.next) :
    ((h.alloc g).2).deref b = h.deref b := by
  unfold Heap.alloc Heap.deref
  exact if_neg (Nat.ne_of_lt hb)

theorem foldl_put_deref {α : Type} (ca b : Nat) (hne : b ≠ ca)
    (F : Heap → α → Graph) :
    ∀ (l : List α) (hh : Heap),
      (l.foldl (fun hh i => hh.put ca (F hh i)) hh).deref b = hh.deref b := by
  intro l
  induction l with
  | nil => intro hh; rfl
  | cons a l ih =>
    intro hh
    rw [List.foldl_cons, ih, Heap.put_deref_ne _ _ _ _ hne]

theorem robStepH_deref (n : ℚ) (ca b : Nat) (hne : b ≠ ca)
    (st : Heap × List ℚ) (node : String) :
    ((robStepH n ca st node).1).deref b = st.1.deref b := by
  unfold robStepH
  by_cases hm : node ∈ (st.1.deref ca).nodeIds
  · rw [if_pos hm]
    by_cases hz : ((st.1.put ca ((st.1.deref ca).removeNode node)).deref ca).numberOfNodes = 0
    · rw [if_pos hz, Heap.put_deref_ne _ _ _ _ hne]
    · rw [if_neg hz, Heap.put_deref_ne _ _ _ _ hne]
  · rw [if_neg hm]

theorem robFoldH_deref (n : ℚ) (ca b : Nat) (hne : b ≠ ca) :
    ∀ (L : List String) (st : Heap × List ℚ),
      ((L.foldl (robStepH n ca) st).1).deref b = st.1.deref b := by
  intro L
  induction L with
  | nil => intro st; rfl
  | cons x L ih =>
    intro st
    rw [List.foldl_cons, ih, robStepH_deref _ _ _ hne]

theorem rob_heap_frame (h : Heap) (ga : Nat) (L : List String)
    (hga : ga < h.next) :
    ((calculate_robustness_heap h ga L).2).deref ga = h.deref ga :=
  (robFoldH_deref ((h.deref ga).numberOfNodes : ℚ) ((h.alloc (h.deref ga)).1) ga
      (Nat.ne_of_lt hga) L ((h.alloc (h.deref ga)).2, [1])).trans
    (Heap.alloc_deref_lt h _ ga hga)

theorem bottleneck_heap_frame (h : Heap) (ga : Nat) (s t : String)
    (hga : ga < h.next) :
    ((get_bottleneck_analysis_heap h ga s t).2).deref ga = h.deref ga :=
  (foldl_put_deref ((h.alloc (h.deref ga)).1) ga (Nat.ne_of_lt hga)
      (fun hh i => (hh.deref (h.alloc (h.deref ga)).1).assignCapAt i)
      (List.range (h.deref ga).edges.length) ((h.alloc (h.deref ga)).2)).trans
    (Heap.alloc_deref_lt h _ ga hga)

theorem weighted_heap_frame (h : Heap) (ga : Nat)
    (bc : Graph → List (String × ℚ)) (hga : ga < h.next) :
    ((get_weighted_centrality_analysis_heap h ga bc).2).deref ga = h.deref ga :=
  (foldl_put_deref ((h.alloc (h.deref ga)).1) ga (Nat.ne_of_lt hga)
      (fun hh i => (hh.deref (h.alloc (h.deref ga)).1).assignWeightAt i)
      (List.range (h.deref ga).edges.length) ((h.alloc (h.deref ga)).2)).trans
    (Heap.alloc_deref_lt h _ ga hga)

/-- C8: `calculate_robustness`, `get_bottleneck_analysis` and
`get_weighted_centrality_analysis` leave the canonical graph object
(the heap cell they were given) unchanged in every respect; each mutates
only its own freshly allocated copy. -/
theorem c8_frame (h : Heap) (ga : Nat) (L : List String) (s t : String)
    (bc : Graph → List (String × ℚ)) (hga : ga < h.next) :
    ((calculate_robustness_heap h ga L).2).deref ga = h.deref ga ∧
    ((get_bottleneck_analysis_heap h ga s t).2).deref ga = h.deref ga ∧
    ((get_weighted_centrality_analysis_heap h ga bc).2).deref ga = h.deref ga :=
  ⟨rob_heap_frame h ga L hga, bottleneck_heap_frame h ga s t hga,
   weighted_heap_frame h ga bc hga⟩

/-- C8 witness: the concrete one-cell heap holding the path graph is
untouched by all three analyses. -/
theorem c8_witness :
    0 < heap0.next ∧
    (((calculate_robustness_heap heap0 0 ["a", "b"]).2).deref 0 = heap0.deref 0 ∧
     ((get_bottleneck_analysis_heap heap0 0 "a" "c").2).deref 0 = heap0.deref 0 ∧
     ((get_weighted_centrality_analysis_heap heap0 0 (fun _ => [])).2).deref 0 =
       heap0.deref 0) :=
  ⟨by decide, c8_frame heap0 0 ["a", "b"] "a" "c" (fun _ => []) (by decide)⟩

/-! ## C6: on-demand bottleneck request validation -/

/-- C6 (counterexample): when `source_id == sink_id` but the id is absent
from the graph, the callback returns the not-found error, not
`SameNodeError` — the membership checks precede the equality check. -/
theorem c6_counterexample :
    update_bottleneck_analysis get_bottleneck_analysis oneNodeGraph "zz" "zz" =
      FlowCallbackResult.sourceNotFound "zz" ∧
    FlowCallbackResult.sourceNotFound "zz" ≠ FlowCallbackResult.sameNode := by
  exact ⟨rfl, by decide⟩

/-- C6 (amended): the callback validates in the order empty-input,
source membership, sink membership, equality: it returns `SameNodeError`
for equal, present, nonempty ids, the structured not-found error when an
id is absent (this check takes precedence over the same-node check), in
all such cases without invoking the flow analysis (the result does not
depend on the flow function), and the validation leaves the canonical
graph object unchanged. -/
theorem c6_validation
    (f f' : Graph → String → String → Except String (BottleneckStats × List BottleneckRow))
    (h : Heap) (ga : Nat) (G : Graph) (s t : String) (hga : ga < h.next) :
    (s ≠ "" → t ≠ "" → s ∈ G.nodeIds → t ∈ G.nodeIds → s = t →
      update_bottleneck_analysis f G s t = .sameNode) ∧
    (s ≠ "" → t ≠ "" → s ∉ G.nodeIds →
      update_bottleneck_analysis f G s t = .sourceNotFound s) ∧
    (s ≠ "" → t ≠ "" → s ∈ G.nodeIds → t ∉ G.nodeIds →
      update_bottleneck_analysis f G s t = .sinkNotFound t) ∧
    ((s = t ∨ s ∉ G.nodeIds ∨ t ∉ G.nodeIds ∨ s = "" ∨ t = "") →
      update_bottleneck_analysis f G s t = update_bottleneck_analysis f' G s t) ∧
    ((update_bottleneck_analysis_state h ga s t).2).deref ga = h.deref ga := by
  refine ⟨?_, ?_, ?_, ?_, ?_⟩
  · intro hs ht hsm htm hst
    unfold update_bottleneck_analysis
    rw [if_neg (by simp [hs, ht]), if_neg (fun hc => hc hsm),
      if_neg (fun hc => hc htm), if_pos hst]
  · intro hs ht hsm
    unfold update_bottleneck_analysis
    rw [if_neg (by simp [hs, ht]), if_pos hsm]
  · intro hs ht hsm htm
    unfold update_bottleneck_analysis
    rw [if_neg (by simp [hs, ht]), if_neg (fun hc => hc hsm), if_pos htm]
  · intro hcase
    unfold update_bottleneck_analysis
    by_cases h1 : s = "" ∨ t = ""
    · rw [if_pos h1, if_pos h1]
    · by_cases h2 : s ∉ G.nodeIds
      · rw [if_neg h1, if_neg h1, if_pos h2, if_pos h2]
      · by_cases h3 : t ∉ G.nodeIds
        · rw [if_neg h1, if_neg h1, if_neg h2, if_neg h2, if_pos h3, if_pos h3]
        · by_cases h4 : s = t
          · rw [if_neg h1, if_neg h1, if_neg h2, if_neg h2, if_neg h3,
              if_neg h3, if_pos h4, if_pos h4]
          · exfalso
            rcases hcase with hc | hc | hc | hc | hc
            · exact h4 hc
            · exact h2 hc
            · exact h3 hc
            · exact h1 (Or.inl hc)
            · exact h1 (Or.inr hc)
  · unfold update_bottleneck_analysis_state
    by_cases h1 : s = "" ∨ t = ""
    · rw [if_pos h1]
    · rw [if_neg h1]
      by_cases h2 : s ∉ (h.deref ga).nodeIds
      · rw [if_pos h2]
      · rw [if_neg h2]
        by_cases h3 : t ∉ (h.deref ga).nodeIds
        · rw [if_pos h3]
        · rw [if_neg h3]
          by_cases h4 : s = t
          · rw [if_pos h4]
          · rw [if_neg h4]
            have hfr := bottleneck_heap_frame h ga s t hga
            rcases hg : get_bottleneck_analysis_heap h ga s t with ⟨res, h2⟩
            rw [hg] at hfr
            cases res <;> simpa using hfr

/-- C6 witness: a same-node request on a present node of the path graph
returns the structured same-node error. -/
theorem c6_witness :
    0 < heap0.next ∧
    update_bottleneck_analysis get_bottleneck_analysis pathGraph3 "a" "a" =
      FlowCallbackResult.sameNode :=
  ⟨by decide,
   (c6_validation get_bottleneck_analysis get_bottleneck_analysis heap0 0
      pathGraph3 "a" "a" (by decide)).1
     (by decide) (by decide) (by decide) (by decide) rfl⟩

/-! ## C9 / C1: the robustness attack loop -/

theorem robStep_snd (n : ℚ) (st : Graph × List ℚ) (a : String)
    (hne : st.2 ≠ []) : ∃ x, (robStep n st a).2 = st.2 ++ [x] := by
  by_cases hm : a ∈ st.1.nodeIds
  · by_cases hz : (st.1.removeNode a).numberOfNodes = 0
    · exact ⟨0, by simp [robStep, hm, hz]⟩
    · exact ⟨((st.1.removeNode a).maxCompSize : ℚ) / n, by simp [robStep, hm, hz]⟩
  · exact ⟨st.2.getLastD 0, by simp [robStep, hm, List.isEmpty_iff, hne]⟩

theorem robFold_aux_length (n : ℚ) : ∀ (L : List String) (st : Graph × List ℚ),
    st.2 ≠ [] →
    ((L.foldl (robStep n) st).2).length = st.2.length + L.length ∧
      (L.foldl (robStep n) st).2 ≠ [] := by
  intro L
  induction L with
  | nil => intro st h; exact ⟨by simp, h⟩
  | cons a L ih =>
    intro st h
    obtain ⟨x, hx⟩ := robStep_snd n st a h
    have hne2 : (robStep n st a).2 ≠ [] := by simp [hx]
    obtain ⟨h1, h2⟩ := ih (robStep n st a) hne2
    refine ⟨?_, by rw [List.foldl_cons]; exact h2⟩
    rw [List.foldl_cons, h1, hx, List.length_append]
    simp only [List.length_cons, List.length_nil, List.length_singleton]
    omega

/-- C9: for every graph and every attack list, `calculate_robustness`
emits exactly `len(L) + 1` values — step 0 plus one value per attack
entry, whether or not the entry is present and whether or not the graph
empties out. -/
theorem c9_length : ∀ (G : Graph) (L : List String),
    (calculate_robustness G L).length = L.length + 1 := by
  intro G L
  have h := (robFold_aux_length (G.numberOfNodes : ℚ) L (G, [1]) (by simp)).1
  unfold calculate_robustness robFold
  rw [h]
  simp [Nat.add_comm]

theorem adjB_mono {G' G : Graph} (hE : ∀ e ∈ G'.edges, e ∈ G.edges)
    {u v : String} (h : G'.adjB u v = true) : G.adjB u v = true := by
  unfold Graph.adjB at h ⊢
  obtain ⟨e, he, hp⟩ := List.any_eq_true.mp h
  exact List.any_eq_true.mpr ⟨e, hE e he, hp⟩

theorem mem_expand_self {G : Graph} {S : List String} {x : String}
    (hx : x ∈ S) : x ∈ G.expand S :=
  List.mem_append_left _ hx

theorem expand_mono {G' G : Graph} (hE : ∀ e ∈ G'.edges, e ∈ G.edges)
    (hV : ∀ v ∈ G'.nodeIds, v ∈ G.nodeIds) {S' S : List String}
    (hS : ∀ x ∈ S', x ∈ S) : ∀ x ∈ G'.expand S', x ∈ G.expand S := by
  intro x hx
  unfold Graph.expand at hx ⊢
  rcases List.mem_append.mp hx with h | h
  · exact List.mem_append_left _ (hS x h)
  · obtain ⟨hxV, hcond⟩ := List.mem_filter.mp h
    refine List.mem_append_right _ (List.mem_filter.mpr ⟨hV x hxV, ?_⟩)
    obtain ⟨u, hu, hadj⟩ := List.any_eq_true.mp hcond
    exact List.any_eq_true.mpr ⟨u, hS u hu, adjB_mono hE hadj⟩

theorem subset_reachAux {G : Graph} : ∀ (k : Nat) (S : List String),
    ∀ x ∈ S, x ∈ G.reachAux k S := by
  intro k
  induction k with
  | zero => intro S x hx; exact hx
  | succ k ih => intro S x hx; exact ih (G.expand S) x (mem_expand_self hx)

theorem reachAux_mono {G' G : Graph} (hE : ∀ e ∈ G'.edges, e ∈ G.edges)
    (hV : ∀ v ∈ G'.nodeIds, v ∈ G.nodeIds) :
    ∀ (k' k : Nat), k' ≤ k → ∀ (S' S : List String), (∀ x ∈ S', x ∈ S) →
      ∀ x ∈ G'.reachAux k' S', x ∈ G.reachAux k S := by
  intro k'
  induction k' with
  | zero => intro k hk S' S hS x hx; exact subset_reachAux k S x (hS x hx)
  | succ k' ih =>
    intro k hk S' S hS x hx
    obtain ⟨k0, rfl⟩ : ∃ k0, k = k0 + 1 := ⟨k - 1, by omega⟩
    exact ih k0 (by omega) (G'.expand S') (G.expand S) (expand_mono hE hV hS) x hx

theorem nodeIds_removeNode_sublist (G : Graph) (n : String) :
    (G.removeNode n).nodeIds.Sublist G.nodeIds :=
  (List.filter_sublist _).map _

theorem reachSet_removeNode_mono (G : Graph) (n s : String) :
    ∀ x ∈ (G.removeNode n).reachSet s, x ∈ G.reachSet s := by
  intro x hx
  unfold Graph.reachSet at hx ⊢
  refine reachAux_mono (fun e he => List.mem_of_mem_filter he)
    (fun v hv => (nodeIds_removeNode_sublist G n).subset hv)
    _ _ ((nodeIds_removeNode_sublist G n).length_le) [s] [s]
    (fun y hy => hy) x hx

theorem component_removeNode_length_le (G : Graph) (n s : String) :
    ((G.removeNode n).component s).length ≤ (G.component s).length := by
  unfold Graph.component
  have h1 : ((G.removeNode n).nodeIds.filter
        (fun v => v ∈ (G.removeNode n).reachSet s)).Sublist
      ((G.removeNode n).nodeIds.filter (fun v => v ∈ G.reachSet s)) := by
    refine List.monotone_filter_right _ (fun a ha => ?_)
    simp only [decide_eq_true_eq] at ha ⊢
    exact reachSet_removeNode_mono G n s a ha
  have h2 : ((G.removeNode n).nodeIds.filter
        (fun v => v ∈ G.reachSet s)).Sublist
      (G.nodeIds.filter (fun v => v ∈ G.reachSet s)) :=
    (nodeIds_removeNode_sublist G n).filter _
  exact (h1.trans h2).length_le

theorem maxCompSize_le_card (G : Graph) : G.maxCompSize ≤ G.nodeIds.length := by
  unfold Graph.maxCompSize
  apply foldr_max_le
  intro x hx
  obtain ⟨s, hs, rfl⟩ := List.mem_map.mp hx
  exact List.length_filter_le _ _

theorem maxCompSize_removeNode_le (G : Graph) (n : String) :
    (G.removeNode n).maxCompSize ≤ G.maxCompSize := by
  unfold Graph.maxCompSize
  apply foldr_max_le
  intro x hx
  obtain ⟨s, hs, rfl⟩ := List.mem_map.mp hx
  have h1 := component_removeNode_length_le G n s
  have hsG : s ∈ G.nodeIds := (nodeIds_removeNode_sublist G n).subset hs
  exact le_trans h1 (le_foldr_max (List.mem_map.mpr ⟨s, hsG, rfl⟩))

theorem nodeIds_length_eq (G : Graph) : G.nodeIds.length = G.numberOfNodes :=
  List.length_map _ _

theorem maxCompSize_of_nil {G : Graph} (h : G.nodeIds = []) :
    G.maxCompSize = 0 := by
  unfold Graph.maxCompSize
  rw [h]
  rfl

theorem numberOfNodes_zero_iff {G : Graph} :
    G.numberOfNodes = 0 ↔ G.nodeIds = [] := by
  rw [← nodeIds_length_eq, List.length_eq_zero]

theorem robStep_inv {n0 : Nat} {st : Graph × List ℚ} (a : String)
    (h : RobInv n0 st) : RobInv n0 (robStep (n0 : ℚ) st a) := by
  obtain ⟨hne, hbnd, hch, hlast, hcard, hemp⟩ := h
  have hlast_nonneg : 0 ≤ st.2.getLastD 0 :=
    le_trans (div_nonneg (Nat.cast_nonneg _) (Nat.cast_nonneg _)) hlast
  by_cases hm : a ∈ st.1.nodeIds
  · have hcard' : (st.1.removeNode a).nodeIds.length ≤ n0 :=
      le_trans (nodeIds_removeNode_sublist st.1 a).length_le hcard
    by_cases hz : (st.1.removeNode a).numberOfNodes = 0
    · have hstep : robStep (n0 : ℚ) st a = (st.1.removeNode a, st.2 ++ [0]) := by
        simp [robStep, hm, hz]
      rw [hstep]
      have hnil : (st.1.removeNode a).nodeIds = [] := numberOfNodes_zero_iff.mp hz
      refine ⟨by simp, ?_, ?_, ?_, hcard', fun _ => List.getLastD_concat _ _ _⟩
      · intro x hx
        rcases List.mem_append.mp hx with hx | hx
        · exact hbnd x hx
        · simp only [List.mem_singleton] at hx
          subst hx
          exact ⟨le_refl 0, zero_le_one⟩
      · exact chain'_concat hch hne hlast_nonneg
      · rw [List.getLastD_concat, maxCompSize_of_nil hnil]
        simp
    · have hstep : robStep (n0 : ℚ) st a =
          (st.1.removeNode a,
           st.2 ++ [((st.1.removeNode a).maxCompSize : ℚ) / (n0 : ℚ)]) := by
        simp [robStep, hm, hz]
      rw [hstep]
      have hn0pos : 0 < n0 :=
        lt_of_lt_of_le (List.length_pos.mpr (List.ne_nil_of_mem hm)) hcard
      have hn0posQ : (0 : ℚ) < (n0 : ℚ) := by exact_mod_cast hn0pos
      have hval_nonneg : (0 : ℚ) ≤ ((st.1.removeNode a).maxCompSize : ℚ) / (n0 : ℚ) :=
        div_nonneg (Nat.cast_nonneg _) (Nat.cast_nonneg _)
      have hval_le_one : ((st.1.removeNode a).maxCompSize : ℚ) / (n0 : ℚ) ≤ 1 := by
        rw [div_le_one hn0posQ]
        exact_mod_cast le_trans (maxCompSize_le_card _) hcard'
      have hval_le_last :
          ((st.1.removeNode a).maxCompSize : ℚ) / (n0 : ℚ) ≤ st.2.getLastD 0 := by
        refine le_trans ?_ hlast
        apply div_le_div_of_nonneg_right ?_ (Nat.cast_nonneg _)
        exact_mod_cast maxCompSize_removeNode_le st.1 a
      refine ⟨by simp, ?_, chain'_concat hch hne hval_le_last, ?_, hcard', ?_⟩
      · intro x hx
        rcases List.mem_append.mp hx with hx | hx
        · exact hbnd x hx
        · simp only [List.mem_singleton] at hx
          subst hx
          exact ⟨hval_nonneg, hval_le_one⟩
      · rw [List.getLastD_concat]
      · intro hnil
        exact absurd (numberOfNodes_zero_iff.mpr hnil) hz
  · have hstep : robStep (n0 : ℚ) st a = (st.1, st.2 ++ [st.2.getLastD 0]) := by
      simp [robStep, hm, List.isEmpty_iff, hne]
    rw [hstep]
    refine ⟨by simp, ?_, chain'_concat hch hne (le_refl _), ?_, hcard, ?_⟩
    · intro x hx
      rcases List.mem_append.mp hx with hx | hx
      · exact hbnd x hx
      · simp only [List.mem_singleton] at hx
        subst hx
        exact hbnd _ (getLastD_mem hne)
    · rw [List.getLastD_concat]
      exact hlast
    · intro hnil
      rw [List.getLastD_concat]
      exact hemp hnil

theorem robFold_aux_inv {n0 : Nat} : ∀ (L : List String) (st : Graph × List ℚ),
    RobInv n0 st → RobInv n0 (L.foldl (robStep (n0 : ℚ)) st) := by
  intro L
  induction L with
  | nil => intro st h; exact h
  | cons a L ih =>
    intro st h
    rw [List.foldl_cons]
    exact ih _ (robStep_inv a h)

theorem robInv_init {G : Graph} (hconn : G.connectedB = true) :
    RobInv G.numberOfNodes (G, [1]) := by
  have hlen : G.nodeIds.length = G.numberOfNodes := nodeIds_length_eq G
  have hnenil : G.nodeIds ≠ [] := by
    intro hnil
    unfold Graph.connectedB at hconn
    rw [hnil] at hconn
    cases hconn
  have hpos : 0 < G.numberOfNodes := by
    rw [← hlen]
    exact List.length_pos.mpr hnenil
  refine ⟨by simp, ?_, List.chain'_singleton 1, ?_, le_of_eq hlen, ?_⟩
  · intro x hx
    simp only [List.mem_singleton] at hx
    subst hx
    exact ⟨zero_le_one, le_refl 1⟩
  · show (G.maxCompSize : ℚ) / (G.numberOfNodes : ℚ) ≤ 1
    rw [div_le_one (by exact_mod_cast hpos)]
    exact_mod_cast le_trans (maxCompSize_le_card G) (le_of_eq hlen)
  · intro hnil
    exact absurd hnil hnenil

theorem robFold_split (G : Graph) (L : List String) (k : Nat) :
    robFold G L =
      (L.drop k).foldl (robStep (G.numberOfNodes : ℚ)) (robFold G (L.take k)) := by
  unfold robFold
  rw [← List.foldl_append, List.take_append_drop]

theorem sizes_extends (n : ℚ) : ∀ (M : List String) (st : Graph × List ℚ),
    st.2 ≠ [] → ∃ rest, (M.foldl (robStep n) st).2 = st.2 ++ rest := by
  intro M
  induction M with
  | nil => intro st h; exact ⟨[], (List.append_nil _).symm⟩
  | cons a M ih =>
    intro st h
    obtain ⟨x, hx⟩ := robStep_snd n st a h
    obtain ⟨rest, hr⟩ := ih (robStep n st a) (by simp [hx])
    exact ⟨[x] ++ rest, by rw [List.foldl_cons, hr, hx, List.append_assoc]⟩

theorem rob_prefix_len (G : Graph) (L : List String) (k : Nat)
    (hk : k ≤ L.length) : (robFold G (L.take k)).2.length = k + 1 := by
  have h := (robFold_aux_length (G.numberOfNodes : ℚ) (L.take k) (G, [1])
    (by simp)).1
  unfold robFold
  rw [h]
  simp only [List.length_singleton, List.length_take]
  omega

theorem rob_prefix_ne (G : Graph) (L : List String) (k : Nat) :
    (robFold G (L.take k)).2 ≠ [] :=
  (robFold_aux_length (G.numberOfNodes : ℚ) (L.take k) (G, [1]) (by simp)).2

theorem rob_getD_eq_getLastD (G : Graph) (L : List String) (k : Nat)
    (hk : k ≤ L.length) :
    (calculate_robustness G L).getD k 0 = (robFold G (L.take k)).2.getLastD 0 := by
  have hpre_ne := rob_prefix_ne G L k
  have hpre_len := rob_prefix_len G L k hk
  obtain ⟨rest, hr⟩ := sizes_extends (G.numberOfNodes : ℚ) (L.drop k)
    (robFold G (L.take k)) hpre_ne
  have hdecomp : calculate_robustness G L = (robFold G (L.take k)).2 ++ rest := by
    unfold calculate_robustness
    rw [robFold_split G L k]
    exact hr
  rw [hdecomp, List.getD_append _ _ _ _ (by omega)]
  have h := getD_last_index hpre_ne
  rw [hpre_len, Nat.add_sub_cancel] at h
  exact h

theorem robFold_take_succ (G : Graph) (L : List String) (k : Nat)
    (hk : k < L.length) :
    robFold G (L.take (k + 1)) =
      robStep (G.numberOfNodes : ℚ) (robFold G (L.take k)) (L.get ⟨k, hk⟩) := by
  unfold robFold
  rw [List.take_succ, List.getElem?_eq_getElem hk]
  rw [List.foldl_append]
  simp [List.get_eq_getElem]

/-- C1: for a connected input graph, the robustness sequence starts at
exactly 1 at step 0, every emitted fraction lies in `[0, 1]`, the
sequence is non-increasing, an attacked id absent from the current
survivor graph repeats the previous value, and at any step where the
survivor graph is empty the emitted value is 0. -/
theorem c1_robustness (G : Graph) (L : List String)
    (hconn : G.connectedB = true) :
    (calculate_robustness G L).head? = some 1 ∧
    (∀ x ∈ calculate_robustness G L, 0 ≤ x ∧ x ≤ 1) ∧
    List.Chain' (fun a b => b ≤ a) (calculate_robustness G L) ∧
    (∀ (k : Nat) (hk : k < L.length),
      L.get ⟨k, hk⟩ ∉ (robGraphAfter G L k).nodeIds →
      (calculate_robustness G L).getD (k + 1) 0 =
        (calculate_robustness G L).getD k 0) ∧
    (∀ k : Nat, k ≤ L.length → (robGraphAfter G L k).nodeIds = [] →
      (calculate_robustness G L).getD k 0 = 0) := by
  obtain ⟨hne, hbnd, hch, _, _, _⟩ :=
    robFold_aux_inv L (G, [1]) (robInv_init hconn)
  refine ⟨?_, hbnd, hch, ?_, ?_⟩
  · obtain ⟨rest, hr⟩ := sizes_extends (G.numberOfNodes : ℚ) L (G, [1]) (by simp)
    show ((L.foldl (robStep (G.numberOfNodes : ℚ)) (G, [1])).2).head? = some 1
    rw [hr]
    rfl
  · intro k hk habs
    unfold robGraphAfter at habs
    rw [List.get_eq_getElem] at habs
    rw [rob_getD_eq_getLastD G L (k + 1) (by omega),
      rob_getD_eq_getLastD G L k (le_of_lt hk), robFold_take_succ G L k hk]
    have hpre_ne := rob_prefix_ne G L k
    have hstep : robStep ((G.numberOfNodes : ℚ)) (robFold G (L.take k))
        (L.get ⟨k, hk⟩) =
        ((robFold G (L.take k)).1,
         (robFold G (L.take k)).2 ++ [(robFold G (L.take k)).2.getLastD 0]) := by
      simp [robStep, List.get_eq_getElem, habs, List.isEmpty_iff, hpre_ne]
    rw [hstep, List.getLastD_concat]
  · intro k hkle hnil
    unfold robGraphAfter at hnil
    rw [rob_getD_eq_getLastD G L k hkle]
    exact (robFold_aux_inv (L.take k) (G, [1]) (robInv_init hconn)).2.2.2.2.2 hnil

/-- C1 witness: the connected 3-node path graph under a concrete attack
list; the sequence starts at 1. -/
theorem c1_witness :
    pathGraph3.connectedB = true ∧
    (calculate_robustness pathGraph3 ["b", "zz", "a", "c"]).head? = some 1 :=
  ⟨by decide, (c1_robustness pathGraph3 ["b", "zz", "a", "c"] (by decide)).1⟩

/-! ## C2: cut value equals boundary capacity sum -/

theorem find?_of_exists {α : Type} {p : α → Bool} {l : List α}
    (h : ∃ x ∈ l, p x = true) : ∃ S, l.find? p = some S ∧ p S = true := by
  induction l with
  | nil =>
    obtain ⟨x, hx, _⟩ := h
    cases hx
  | cons c cs ih =>
    by_cases hc : p c = true
    · exact ⟨c, by rw [List.find?_cons_of_pos _ hc], hc⟩
    · obtain ⟨x, hx, hpx⟩ := h
      rcases List.mem_cons.mp hx with rfl | hx'
      · exact absurd hpx hc
      · obtain ⟨S, hS, hpS⟩ := ih ⟨x, hx', hpx⟩
        exact ⟨S, by rw [List.find?_cons_of_neg _ hc]; exact hS, hpS⟩

theorem singleton_mem_cutCandidates {G : Graph} {s t : String}
    (hs : s ∈ G.nodeIds) (hst : s ≠ t) : [s] ∈ cutCandidates G s t := by
  unfold cutCandidates
  refine List.mem_filter.mpr ⟨List.mem_sublists.mpr (List.singleton_sublist.mpr hs), ?_⟩
  simp [List.mem_singleton, Ne.symm hst]

theorem minCut_attained (G : Graph) (s t : String)
    (hs : s ∈ G.nodeIds) (hst : s ≠ t) :
    ∃ S ∈ cutCandidates G s t, cutWeight G.edges S = minCutValue G s t := by
  have hmem := singleton_mem_cutCandidates hs hst
  obtain ⟨c, cs, hcands⟩ :=
    List.exists_cons_of_ne_nil (List.ne_nil_of_mem hmem)
  have hval : minCutValue G s t =
      (cs.map (cutWeight G.edges)).foldl min (cutWeight G.edges c) := by
    unfold minCutValue
    rw [hcands, List.map_cons]
  have hin : (cs.map (cutWeight G.edges)).foldl min (cutWeight G.edges c) ∈
      (cutCandidates G s t).map (cutWeight G.edges) := by
    rw [hcands, List.map_cons]
    exact foldl_min_mem _ _
  obtain ⟨S, hSmem, hfS⟩ := List.mem_map.mp hin
  exact ⟨S, hSmem, by rw [hfS, hval]⟩

theorem minCutSide_weight (G : Graph) (s t : String)
    (hs : s ∈ G.nodeIds) (hst : s ≠ t) :
    cutWeight G.edges (minCutSide G s t) = minCutValue G s t := by
  obtain ⟨S, hSmem, hw⟩ := minCut_attained G s t hs hst
  obtain ⟨S', hfind, hp⟩ := find?_of_exists
    (p := fun S => decide (cutWeight G.edges S = minCutValue G s t))
    ⟨S, hSmem, by simp [hw]⟩
  unfold minCutSide
  rw [hfind]
  simpa using hp

theorem edge_boundary_eq_cross (edges : List EdgeData) (V P : List String)
    (hwf : ∀ e ∈ edges, e.src ∈ V ∧ e.dst ∈ V) :
    edge_boundary edges P (V.filter (fun v => decide (v ∉ P))) =
      edges.filter (fun e =>
        decide ((e.src ∈ P ∧ e.dst ∉ P) ∨ (e.dst ∈ P ∧ e.src ∉ P))) := by
  unfold edge_boundary
  apply List.filter_congr
  intro e he
  obtain ⟨h1, h2⟩ := hwf e he
  simp [List.mem_filter, h1, h2]

theorem edgeCap_withCapacities (G : Graph) :
    ∀ e ∈ G.withCapacities.edges, edgeCap e = claimCapacity e := by
  intro e he
  unfold Graph.withCapacities at he
  obtain ⟨e0, he0, rfl⟩ := List.mem_map.mp he
  rfl

theorem wf_withCapacities {G : Graph} (hwf : G.wfB = true) :
    ∀ e ∈ G.withCapacities.edges,
      e.src ∈ G.withCapacities.nodeIds ∧ e.dst ∈ G.withCapacities.nodeIds := by
  intro e he
  obtain ⟨e0, he0, rfl⟩ := List.mem_map.mp he
  have h := List.all_eq_true.mp hwf e0 he0
  simpa using h

/-- C2: for a connected graph and a valid source/sink pair, the cut value
computed by the bottleneck analysis equals the sum over the extracted
boundary edges of the documented capacity (1.0 when the length attribute
is absent, malformed, or 0, else `1/length`). -/
theorem c2_cut_value (G : Graph) (s t : String) (hwf : G.wfB = true)
    (hconn : G.connectedB = true) (hs : s ∈ G.nodeIds) (ht : t ∈ G.nodeIds)
    (hst : s ≠ t) :
    (bottleneckCore G s t).cutValue =
      ((bottleneckCore G s t).boundary.map claimCapacity).sum := by
  show minCutValue G.withCapacities s t =
    ((edge_boundary G.withCapacities.edges (minCutSide G.withCapacities s t)
        (G.withCapacities.nodeIds.filter
          (fun v => decide (v ∉ minCutSide G.withCapacities s t)))).map
      claimCapacity).sum
  rw [edge_boundary_eq_cross _ _ _ (wf_withCapacities hwf)]
  have hsw : s ∈ G.withCapacities.nodeIds := hs
  rw [← minCutSide_weight G.withCapacities s t hsw hst]
  unfold cutWeight
  apply congrArg List.sum
  apply List.map_congr_left
  intro e he
  exact edgeCap_withCapacities G e (List.mem_of_mem_filter he)

/-- C2 witness: the 3-node path graph with its concrete lengths; the
minimum cut between the two ends equals the boundary capacity sum. -/
theorem c2_witness :
    pathGraph3.wfB = true ∧ pathGraph3.connectedB = true ∧
    "a" ∈ pathGraph3.nodeIds ∧ "c" ∈ pathGraph3.nodeIds ∧ "a" ≠ "c" ∧
    (bottleneckCore pathGraph3 "a" "c").cutValue =
      ((bottleneckCore pathGraph3 "a" "c").boundary.map claimCapacity).sum :=
  ⟨by decide, by decide, by decide, by decide, by decide,
   c2_cut_value pathGraph3 "a" "c" (by decide) (by decide) (by decide)
     (by decide) (by decide)⟩

/-! ## C5: the unguarded `float()` at line 291 -/

/-- C5 (code behaviour at the failing input): on a graph whose only
edge carries the malformed length `"abc"`, the flow computation itself
succeeds (cut value 1, one boundary edge), yet `get_bottleneck_analysis`
propagates a `ValueError` from the unguarded
`float(edge_data.get('lengthm', 0))` in the row loop instead of falling
back to a default. -/
theorem c5_malformed_length_raises :
    get_bottleneck_analysis badLengthGraph "a" "b" =
      Except.error "ValueError: could not convert lengthm to float" ∧
    (bottleneckCore badLengthGraph "a" "b").cutValue = 1 ∧
    (bottleneckCore badLengthGraph "a" "b").boundary.length = 1 := by
  refine ⟨?_, ?_, ?_⟩ <;> with_unfolding_all rfl
